import Mathlib

/-!
Verification of the core swarm-state and scatter/gather logic of the
aquatic BitTorrent tracker (UDP and WebSocket front ends).

The definitions below are shallow embeddings of the Rust source:

* `src/aquatic_udp/src/common.rs` — peer status derivation, shard routing,
  channel send policy.
* `src/aquatic_udp/src/lib/common/mod.rs` — `TorrentData`, `TorrentMaps::clean`
  and `TorrentMaps::clean_torrent_and_peers`.
* `src/aquatic_ws/src/glommio/socket.rs` — WebSocket in-message handling and
  the pending-scrape scatter/gather.

Rust `usize` values are embedded as `Nat` together with explicit wrapping
arithmetic modulo `2 ^ 64` at the points where the source performs
unchecked (release-mode) subtraction.  Ordered maps (`IndexMap`, slabs,
`BTreeMap`, `HashMap`) are embedded as association lists with the operation
semantics of the corresponding container (first-occurrence update, key
ordering for `BTreeMap`).
-/

/-- Modulus of Rust's 64-bit `usize` arithmetic. -/
def USIZE_MOD : Nat := 2 ^ 64

/-- Release-mode (`-= 1`) decrement of a `usize`: wraps modulo `2 ^ 64`.
In development builds the implicit overflow check panics instead. -/
def usizeDec (n : Nat) : Nat :=
  (n % USIZE_MOD + (USIZE_MOD - 1)) % USIZE_MOD

/-! ## Protocol value types

Embedded from the external `aquatic_udp_protocol` crate interface as the
spec describes it (§6): 20-byte identifiers, `i64` byte counts, announce
events `None`, `Completed`, `Started`, `Stopped`. -/

/-- 20-byte torrent identifier (`InfoHash(pub [u8; 20])`).  Embedded as the
list of its bytes; index 0 is the head of the list. -/
structure InfoHash where
  bytes : List Nat
deriving DecidableEq

/-- 20-byte client-chosen peer identifier (`PeerId(pub [u8; 20])`). -/
structure PeerId where
  bytes : List Nat
deriving DecidableEq

/-- Announce event field of an announce request (spec §6:
`0 = None, 1 = Completed, 2 = Started, 3 = Stopped`). -/
inductive AnnounceEvent where
  | Started
  | Stopped
  | Completed
  | NoEvent
deriving DecidableEq

/-- `NumberOfBytes(pub i64)`: the `left` field of an announce request. -/
structure NumberOfBytes where
  val : Int
deriving DecidableEq

/-- Peer port (`Port(pub u16)`), embedded as a `Nat`. -/
structure Port where
  val : Nat
deriving DecidableEq

/-! ## Peer status (src/aquatic_udp/src/common.rs lines 116-137 and
src/aquatic_udp/src/lib/common/mod.rs lines 120-141; both copies are
identical). -/

inductive PeerStatus where
  | Seeding
  | Leeching
  | Stopped
deriving DecidableEq

/-- Determine peer status from announce event and number of bytes left.
Embeds `PeerStatus::from_event_and_bytes_left`. -/
def PeerStatus.from_event_and_bytes_left (event : AnnounceEvent)
    (bytes_left : NumberOfBytes) : PeerStatus :=
  if event = AnnounceEvent.Stopped then
    PeerStatus.Stopped
  else if bytes_left.val = 0 then
    PeerStatus.Seeding
  else
    PeerStatus.Leeching

/-! ## Swarm state (src/aquatic_udp/src/lib/common/mod.rs lines 143-185)

`ValidUntil` wraps an `Instant`; instants are embedded as `Nat` time
points.  `PeerMap` is an insertion-ordered map `PeerId -> Peer`, embedded
as an association list. -/

/-- A stored peer (`Peer<I>` with `I` the IP address type). -/
structure Peer (I : Type) where
  ip_address : I
  port : Port
  status : PeerStatus
  valid_until : Nat
deriving DecidableEq

/-- Per-torrent swarm state (`TorrentData<I>`); `num_seeders` and
`num_leechers` are `usize` counters. -/
structure TorrentData (I : Type) where
  peers : List (PeerId × Peer I)
  num_seeders : Nat
  num_leechers : Nat
deriving DecidableEq

/-- `impl Default for TorrentData` : empty peer map, zero counters. -/
def TorrentData.default (I : Type) : TorrentData I :=
  { peers := [], num_seeders := 0, num_leechers := 0 }

/-- Number of stored peers with the given status. -/
def countStatus {I : Type} (s : PeerStatus) : List (PeerId × Peer I) → Nat
  | [] => 0
  | e :: rest => (if e.2.status = s then 1 else 0) + countStatus s rest

/-! ## The cleaner (src/aquatic_udp/src/lib/common/mod.rs lines 187-240) -/

/-- The `peers.retain(...)` loop body of
`TorrentMaps::clean_torrent_and_peers`: walk the peer map keeping peers
with `valid_until > now`; for each removed peer decrement (unchecked
`usize` subtraction) the counter matching its status.  Returns the
retained peers and the final counter values. -/
def cleanPeersLoop {I : Type} (now : Nat) :
    List (PeerId × Peer I) → Nat → Nat → List (PeerId × Peer I) × Nat × Nat
  | [], ns, nl => ([], ns, nl)
  | e :: rest, ns, nl =>
    if now < e.2.valid_until then
      (e :: (cleanPeersLoop now rest ns nl).1, (cleanPeersLoop now rest ns nl).2)
    else
      match e.2.status with
      | PeerStatus.Seeding => cleanPeersLoop now rest (usizeDec ns) nl
      | PeerStatus.Leeching => cleanPeersLoop now rest ns (usizeDec nl)
      | PeerStatus.Stopped => cleanPeersLoop now rest ns nl

namespace TorrentMaps

/-- `TorrentMaps::clean_torrent_and_peers`: evict expired peers, adjust the
counters, and report whether the torrent is to be kept (`true` iff the
peer map is non-empty afterwards).  `shrink_to_fit` does not change the
map contents. -/
def clean_torrent_and_peers {I : Type} (now : Nat) (torrent : TorrentData I) :
    TorrentData I × Bool :=
  let r := cleanPeersLoop now torrent.peers torrent.num_seeders torrent.num_leechers
  ({ peers := r.1, num_seeders := r.2.1, num_leechers := r.2.2 }, !r.1.isEmpty)

/-- The `retain` pass of `TorrentMaps::clean` over one torrent map
(`self.ipv4.retain(...)` respectively `self.ipv6.retain(...)`): a torrent
is kept iff the access list allows its info hash (`allows` stands for
`access_list_cache.load().allows(access_list_mode, &info_hash.0)`) and, in
that case, `clean_torrent_and_peers` leaves its peer map non-empty.  Rust's
`&&` short-circuits: a disallowed torrent is dropped without being
cleaned.  `shrink_to_fit` does not change the map contents. -/
def cleanMap {I : Type} (allows : InfoHash → Bool) (now : Nat) :
    List (InfoHash × TorrentData I) → List (InfoHash × TorrentData I)
  | [] => []
  | (info_hash, torrent) :: rest =>
    if allows info_hash then
      let r := clean_torrent_and_peers now torrent
      if r.2 then (info_hash, r.1) :: cleanMap allows now rest
      else cleanMap allows now rest
    else cleanMap allows now rest

end TorrentMaps

/-- `TorrentMaps`: one IPv4 and one IPv6 torrent map. -/
structure TorrentMapsState (I4 I6 : Type) where
  ipv4 : List (InfoHash × TorrentData I4)
  ipv6 : List (InfoHash × TorrentData I6)

/-- `TorrentMaps::clean`: remove disallowed and inactive torrents from both
maps. -/
def TorrentMaps.clean {I4 I6 : Type} (allows : InfoHash → Bool) (now : Nat)
    (maps : TorrentMapsState I4 I6) : TorrentMapsState I4 I6 :=
  { ipv4 := TorrentMaps.cleanMap allows now maps.ipv4
    ipv6 := TorrentMaps.cleanMap allows now maps.ipv6 }

/-! ## Shard routing (src/aquatic_udp/src/common.rs lines 49-56 and
src/aquatic_ws/src/glommio/socket.rs lines 466-468) -/

/-- The slice of the UDP tracker configuration used by request routing. -/
structure Config where
  swarm_workers : Nat

/-- The slice of the WebSocket tracker configuration used by in-message
routing. -/
structure WsConfig where
  request_workers : Nat

structure SwarmWorkerIndex where
  val : Nat
deriving DecidableEq

/-- `SwarmWorkerIndex::from_info_hash`:
`Self(info_hash.0[0] as usize % config.swarm_workers)`. -/
def SwarmWorkerIndex.from_info_hash (config : Config) (info_hash : InfoHash) :
    SwarmWorkerIndex :=
  SwarmWorkerIndex.mk (info_hash.bytes.getD 0 0 % config.swarm_workers)

/-- `calculate_in_message_consumer_index` (WebSocket front end):
`(info_hash.0[0] as usize) % config.request_workers`. -/
def calculate_in_message_consumer_index (config : WsConfig)
    (info_hash : InfoHash) : Nat :=
  info_hash.bytes.getD 0 0 % config.request_workers

/-! ## Channel send policy (src/aquatic_udp/src/common.rs lines 58-114)

The crossbeam bounded channel itself is an external collaborator.
Modelled from the spec: "Channels are MPMC bounded with configurable
capacity; all sends on the hot path use non-blocking try-send" (§5); a
try-send fails with `Full` when the queue holds `capacity` messages and
with `Disconnected` when the receiving side is gone. -/

structure ChannelState (α : Type) where
  capacity : Nat
  queue : List α
  receiver_connected : Bool

inductive ChannelTrySendResult (α : Type) where
  | ok
  | errFull (msg : α)
  | errDisconnected (msg : α)

/-- Modelled from the spec: non-blocking `try_send` of a bounded MPMC
channel (the `crossbeam_channel::Sender::try_send` interface used by the
source). -/
def channelTrySend {α : Type} (chan : ChannelState α) (msg : α) :
    ChannelTrySendResult α × ChannelState α :=
  if chan.receiver_connected = false then
    (ChannelTrySendResult.errDisconnected msg, chan)
  else if chan.capacity ≤ chan.queue.length then
    (ChannelTrySendResult.errFull msg, chan)
  else
    (ChannelTrySendResult.ok, { chan with queue := chan.queue ++ [msg] })

/-- Observable outcome of one `try_send_to` call: the message was
delivered into the channel, or dropped with an operator log entry
(`log::error!`), or the worker panicked (fatal). -/
inductive SendToOutcome where
  | delivered
  | droppedWithLog
  | fatalPanic
deriving DecidableEq

/-- `ConnectedRequestSender::try_send_to`: index the sender vector, try to
send, and match the result — `Ok` delivers, `Full` logs and drops the
request, `Disconnected` panics.  An out-of-bounds index also panics
(Rust slice indexing). -/
def ConnectedRequestSender.try_send_to {α : Type}
    (senders : List (ChannelState α)) (index : Nat) (msg : α) :
    SendToOutcome × List (ChannelState α) :=
  match senders[index]? with
  | none => (SendToOutcome.fatalPanic, senders)
  | some chan =>
    match channelTrySend chan msg with
    | (ChannelTrySendResult.ok, chan') =>
      (SendToOutcome.delivered, senders.set index chan')
    | (ChannelTrySendResult.errFull _, _) => (SendToOutcome.droppedWithLog, senders)
    | (ChannelTrySendResult.errDisconnected _, _) => (SendToOutcome.fatalPanic, senders)

/-- `ConnectedResponseSender::try_send_to`: identical policy for the
response channels. -/
def ConnectedResponseSender.try_send_to {α : Type}
    (senders : List (ChannelState α)) (index : Nat) (msg : α) :
    SendToOutcome × List (ChannelState α) :=
  match senders[index]? with
  | none => (SendToOutcome.fatalPanic, senders)
  | some chan =>
    match channelTrySend chan msg with
    | (ChannelTrySendResult.ok, chan') =>
      (SendToOutcome.delivered, senders.set index chan')
    | (ChannelTrySendResult.errFull _, _) => (SendToOutcome.droppedWithLog, senders)
    | (ChannelTrySendResult.errDisconnected _, _) => (SendToOutcome.fatalPanic, senders)

/-! ## WebSocket pending-scrape scatter/gather
(src/aquatic_ws/src/glommio/socket.rs) -/

/-- Per-torrent scrape statistics of the WebSocket protocol
(`ScrapeStatistics`, from the external `aquatic_ws_protocol` crate
interface: `complete` seeders, `incomplete` leechers). -/
structure WsScrapeStatistics where
  complete : Int
  incomplete : Int
deriving DecidableEq

/-- Pending scrape slab entry (socket.rs lines 36-39): the number of swarm
worker replies still outstanding (`usize`) and the accumulated stats,
keyed by info hash (`HashMap<InfoHash, ScrapeStatistics>`, embedded as an
association list). -/
structure WsPendingScrapeResponse where
  pending_worker_out_messages : Nat
  stats : List (InfoHash × WsScrapeStatistics)
deriving DecidableEq

/-- `HashMap::insert` on the association-list embedding: overwrite the
first binding of the key, or append a new binding. -/
def statsInsert (key : InfoHash) (val : WsScrapeStatistics) :
    List (InfoHash × WsScrapeStatistics) → List (InfoHash × WsScrapeStatistics)
  | [] => [(key, val)]
  | e :: rest =>
    if e.1 = key then (key, val) :: rest else e :: statsInsert key val rest

/-- `pending.stats.extend(out_message.files)`: insert every binding of the
reply, overwriting existing keys. -/
def extendStats (stats files : List (InfoHash × WsScrapeStatistics)) :
    List (InfoHash × WsScrapeStatistics) :=
  files.foldl (fun acc e => statsInsert e.1 e.2 acc) stats

/-- Look up a slab entry by key (`Slab::get_mut`). -/
def slabGet (key : Nat) : List (Nat × WsPendingScrapeResponse) →
    Option WsPendingScrapeResponse
  | [] => none
  | e :: rest => if e.1 = key then some e.2 else slabGet key rest

/-- The `OutMessage::ScrapeResponse` arm of
`ConnectionWriter::run_out_message_loop` (socket.rs lines 414-447): locate
the slab entry by the reply's pending-scrape id; if absent the connection
errors out (`none`).  Otherwise merge the reply's `files` into the
accumulator, decrement `pending_worker_out_messages` (unchecked `usize`
subtraction), and if the count is now zero remove the entry from the slab
and emit the assembled scrape response; otherwise store the updated entry
and emit nothing. -/
def handle_scrape_out_message (slab : List (Nat × WsPendingScrapeResponse))
    (pending_scrape_id : Nat) (files : List (InfoHash × WsScrapeStatistics)) :
    Option (List (Nat × WsPendingScrapeResponse) ×
            Option (List (InfoHash × WsScrapeStatistics))) :=
  match slabGet pending_scrape_id slab with
  | none => none
  | some pending =>
    let merged := extendStats pending.stats files
    let remaining := usizeDec pending.pending_worker_out_messages
    if remaining = 0 then
      some (slab.filter (fun e => e.1 != pending_scrape_id), some merged)
    else
      some (slab.map (fun e =>
        if e.1 = pending_scrape_id then
          (pending_scrape_id,
           WsPendingScrapeResponse.mk remaining merged)
        else e), none)

/-- In-message of the WebSocket protocol as far as
`ConnectionReader::handle_in_message` inspects it: an announce request
(with its info hash) or a scrape request whose `info_hashes` field is
optional. -/
inductive WsInMessage where
  | announceRequest (info_hash : InfoHash)
  | scrapeRequest (info_hashes : Option (List InfoHash))
deriving DecidableEq

/-- `BTreeMap<usize, Vec<InfoHash>>` insertion used by
`info_hashes_by_worker`: keys kept in ascending order, values appended. -/
def insertByWorker (idx : Nat) (info_hash : InfoHash) :
    List (Nat × List InfoHash) → List (Nat × List InfoHash)
  | [] => [(idx, [info_hash])]
  | (k, hs) :: rest =>
    if idx < k then (idx, [info_hash]) :: (k, hs) :: rest
    else if idx = k then (k, hs ++ [info_hash]) :: rest
    else (k, hs) :: insertByWorker idx info_hash rest

/-- Partition the requested info hashes by swarm worker
(socket.rs lines 329-337): iterate in request order, grouping each hash
under `calculate_in_message_consumer_index`. -/
def groupInfoHashesByWorker (config : WsConfig) (hashes : List InfoHash) :
    List (Nat × List InfoHash) :=
  hashes.foldl
    (fun acc h =>
      insertByWorker (calculate_in_message_consumer_index config h) h acc)
    []

/-- Effects of one `ConnectionReader::handle_in_message` call: the
messages sent to swarm workers (consumer index, the pending-scrape id of
the attached `ConnectionMeta`, and the message), the failure reason of an
error response sent back to the client (if any), and the slab entry
inserted into the pending-scrape slab (if any). -/
structure WsHandleResult where
  worker_messages : List (Nat × Option Nat × WsInMessage)
  error_response : Option String
  slab_insert : Option (Nat × WsPendingScrapeResponse)
deriving DecidableEq

/-- `ConnectionReader::handle_in_message` (socket.rs lines 291-368).
`allows` stands for the access-list oracle
`access_list_cache.load().allows(config.access_list.mode, ...)`;
`fresh_key` is the key handed out by `Slab::insert` for the scrape
branch.  An announce request is routed to its consumer if allowed,
otherwise answered with an `"Info hash not allowed"` error.  A scrape
request without an `info_hashes` field is answered with a
`"Full scrapes are not allowed"` error and touches neither slab nor
workers.  Otherwise the hashes are partitioned by worker, a slab entry
with `pending_worker_out_messages = number of involved workers` is
inserted, and one scrape message per worker is sent carrying the slab
key. -/
def handle_in_message (config : WsConfig) (allows : InfoHash → Bool)
    (fresh_key : Nat) (in_message : WsInMessage) : WsHandleResult :=
  match in_message with
  | WsInMessage.announceRequest info_hash =>
    if allows info_hash then
      { worker_messages :=
          [(calculate_in_message_consumer_index config info_hash, none,
            WsInMessage.announceRequest info_hash)]
        error_response := none
        slab_insert := none }
    else
      { worker_messages := []
        error_response := some "Info hash not allowed"
        slab_insert := none }
  | WsInMessage.scrapeRequest none =>
    { worker_messages := []
      error_response := some "Full scrapes are not allowed"
      slab_insert := none }
  | WsInMessage.scrapeRequest (some hashes) =>
    let by_worker := groupInfoHashesByWorker config hashes
    { worker_messages :=
        by_worker.map (fun e =>
          (e.1, some fresh_key, WsInMessage.scrapeRequest (some e.2)))
      error_response := none
      slab_insert :=
        some (fresh_key, WsPendingScrapeResponse.mk by_worker.length []) }

/-! ## Announce handling on one torrent

The announce handler (`handle_announce_request` in
`aquatic_udp::workers::swarm`) is not part of this repository slice; only
its caller, `src/aquatic_udp/fuzz/fuzz_targets/handle_requests.rs`, is.
Its effect on one `TorrentData` is modelled from the spec (§4.3). -/

/-- First-occurrence association-list lookup (`IndexMap` key lookup). -/
def lookupPeer {I : Type} (pid : PeerId) :
    List (PeerId × Peer I) → Option (Peer I)
  | [] => none
  | e :: rest => if e.1 = pid then some e.2 else lookupPeer pid rest

/-- `IndexMap::insert`: replace the value of an existing key in place
(keeping its position in insertion order), or append a new binding. -/
def upsertPeer {I : Type} (pid : PeerId) (p : Peer I) :
    List (PeerId × Peer I) → List (PeerId × Peer I)
  | [] => [(pid, p)]
  | e :: rest =>
    if e.1 = pid then (pid, p) :: rest else e :: upsertPeer pid p rest

/-- Remove the binding of a key (`IndexMap::remove`). -/
def erasePeer {I : Type} (pid : PeerId) :
    List (PeerId × Peer I) → List (PeerId × Peer I)
  | [] => []
  | e :: rest => if e.1 = pid then rest else e :: erasePeer pid rest

/-- Modelled from the spec: the effect of one announce on one torrent's
swarm state (§4.3 steps 2-4; `handle_announce_request` itself lives in
`aquatic_udp::workers::swarm`, outside this repository slice).  Derive
the status with `PeerStatus::from_event_and_bytes_left`; on `Stopped`
remove the peer entry and decrement the counter matching the old status;
otherwise insert or update the peer (refreshing `valid_until`), adjusting
`num_seeders` / `num_leechers` for the status transition. -/
def TorrentData.handle_announce {I : Type} (torrent : TorrentData I)
    (pid : PeerId) (ip : I) (port : Port) (event : AnnounceEvent)
    (bytes_left : NumberOfBytes) (valid_until : Nat) : TorrentData I :=
  let status := PeerStatus.from_event_and_bytes_left event bytes_left
  let opt_old := lookupPeer pid torrent.peers
  let ns :=
    match opt_old with
    | some old =>
      if old.status = PeerStatus.Seeding then torrent.num_seeders - 1
      else torrent.num_seeders
    | none => torrent.num_seeders
  let nl :=
    match opt_old with
    | some old =>
      if old.status = PeerStatus.Leeching then torrent.num_leechers - 1
      else torrent.num_leechers
    | none => torrent.num_leechers
  match status with
  | PeerStatus.Stopped =>
    { peers := erasePeer pid torrent.peers, num_seeders := ns, num_leechers := nl }
  | PeerStatus.Seeding =>
    { peers := upsertPeer pid (Peer.mk ip port PeerStatus.Seeding valid_until) torrent.peers
      num_seeders := ns + 1
      num_leechers := nl }
  | PeerStatus.Leeching =>
    { peers := upsertPeer pid (Peer.mk ip port PeerStatus.Leeching valid_until) torrent.peers
      num_seeders := ns
      num_leechers := nl + 1 }

/-- One operation applied to a single torrent's swarm state by its owning
swarm worker: an announce handling or a cleaning pass. -/
inductive TorrentOp (I : Type) where
  | announce (pid : PeerId) (ip : I) (port : Port) (event : AnnounceEvent)
      (bytes_left : NumberOfBytes) (valid_until : Nat)
  | cleanPass (now : Nat)

/-- Apply one operation to a torrent's swarm state. -/
def applyTorrentOp {I : Type} (torrent : TorrentData I) :
    TorrentOp I → TorrentData I
  | TorrentOp.announce pid ip port event bytes_left valid_until =>
    torrent.handle_announce pid ip port event bytes_left valid_until
  | TorrentOp.cleanPass now => (TorrentMaps.clean_torrent_and_peers now torrent).1

/-- `retain` keep-condition of the cleaner: `peer.valid_until.0 > now`. -/
def keepPeer {I : Type} (now : Nat) (e : PeerId × Peer I) : Bool :=
  decide (now < e.2.valid_until)

/-! ## Connection-level trace model of the pending-scrape slab

State of one WebSocket connection as far as the pending-scrape
scatter/gather is concerned: the slab shared by `ConnectionReader` and
`ConnectionWriter`, the scrape messages sent to swarm workers whose
replies have not yet been processed, and (model bookkeeping) the slab keys
whose assembled scrape response has been emitted to the client. -/
structure WsConnectionState where
  slab : List (Nat × WsPendingScrapeResponse)
  inflight : List (Nat × List InfoHash)
  emitted_for : List Nat

/-- The worker-message/inflight bookkeeping of one
`handle_in_message` call: each scrape message sent to a swarm worker
carries its pending-scrape id and its subset of the info hashes. -/
def inflightOf (r : WsHandleResult) : List (Nat × List InfoHash) :=
  r.worker_messages.filterMap (fun m =>
    match m.2.1, m.2.2 with
    | some id, WsInMessage.scrapeRequest (some hs) => some (id, hs)
    | _, _ => none)

/-- One step of a WebSocket connection's event loops.

* `in_message`: `ConnectionReader::handle_in_message` on a fresh slab key
  (`Slab::insert` always hands out a key not currently in the slab);
  the inserted entry (if any) is appended to the slab, and the scrape
  messages sent to swarm workers become inflight.
* `worker_reply`: `ConnectionWriter::run_out_message_loop` processes one
  swarm-worker scrape reply.  A worker only replies to a message that was
  actually sent, so the reply must match an inflight message; the slab is
  updated by `handle_scrape_out_message`, and if that emits an assembled
  response the entry's key is recorded as emitted. -/
inductive WsStep (config : WsConfig) (allows : InfoHash → Bool) :
    WsConnectionState → WsConnectionState → Prop
  | in_message (s : WsConnectionState) (msg : WsInMessage) (k : Nat)
      (hfresh : ∀ e ∈ s.slab, e.1 ≠ k) :
      WsStep config allows s
        { slab := s.slab ++ (handle_in_message config allows k msg).slab_insert.toList
          inflight := s.inflight ++ inflightOf (handle_in_message config allows k msg)
          emitted_for := s.emitted_for }
  | worker_reply (s : WsConnectionState) (id : Nat) (hs : List InfoHash)
      (files : List (InfoHash × WsScrapeStatistics))
      (slab' : List (Nat × WsPendingScrapeResponse))
      (out : Option (List (InfoHash × WsScrapeStatistics)))
      (hin : (id, hs) ∈ s.inflight)
      (hhandle : handle_scrape_out_message s.slab id files = some (slab', out)) :
      WsStep config allows s
        { slab := slab'
          inflight := s.inflight.erase (id, hs)
          emitted_for :=
            s.emitted_for ++ (match out with | some _ => [id] | none => []) }

/-- Reachability in the connection trace model. -/
def WsReachable (config : WsConfig) (allows : InfoHash → Bool) :
    WsConnectionState → WsConnectionState → Prop :=
  Relation.ReflTransGen (WsStep config allows)

/-- A pending-scrape slab entry that can never make progress: it sits in
the slab with an outstanding count of zero and empty accumulator, no
swarm-worker message for it is in flight, and no response for it has been
emitted. -/
def entryStuck (k : Nat) (s : WsConnectionState) : Prop :=
  (k, WsPendingScrapeResponse.mk 0 []) ∈ s.slab ∧
  (∀ hs, (k, hs) ∉ s.inflight) ∧
  k ∉ s.emitted_for

/-- Swarm-state wellformedness maintained by the swarm worker on each
torrent: no stored peer has status Stopped, and the counters equal the
number of stored Seeding respectively Leeching peers. -/
def TorrentData.Wf {I : Type} (t : TorrentData I) : Prop :=
  (∀ e ∈ t.peers, e.2.status ≠ PeerStatus.Stopped) ∧
  t.num_seeders = countStatus PeerStatus.Seeding t.peers ∧
  t.num_leechers = countStatus PeerStatus.Leeching t.peers

/-! # Theorems

Supporting lemmas first, then one theorem (plus witness or
counterexample) per claim. -/

theorem usizeDec_of_pos {n : Nat} (h0 : 0 < n) (h : n < USIZE_MOD) :
    usizeDec n = n - 1 := by
  unfold usizeDec
  rw [Nat.mod_eq_of_lt h]
  have h1 : n + (USIZE_MOD - 1) = n - 1 + USIZE_MOD := by
    have : 1 ≤ USIZE_MOD := by norm_num [USIZE_MOD]
    omega
  rw [h1, Nat.add_mod_right]
  exact Nat.mod_eq_of_lt (by omega)

theorem usizeDec_zero : usizeDec 0 = USIZE_MOD - 1 := by
  unfold usizeDec USIZE_MOD
  norm_num

/-! ## Counting lemmas -/

theorem countStatus_le_length {I : Type} (s : PeerStatus)
    (l : List (PeerId × Peer I)) : countStatus s l ≤ l.length := by
  induction l with
  | nil => simp [countStatus]
  | cons e rest ih =>
    simp only [countStatus, List.length_cons]
    split <;> omega

theorem countStatus_filter_partition {I : Type} (s : PeerStatus)
    (p : PeerId × Peer I → Bool) (l : List (PeerId × Peer I)) :
    countStatus s (l.filter p) + countStatus s (l.filter (fun e => !p e))
      = countStatus s l := by
  induction l with
  | nil => simp [countStatus]
  | cons e rest ih =>
    by_cases hp : p e <;> simp [countStatus, hp, ← ih] <;> omega

theorem countStatus_pos_of_mem {I : Type} {s : PeerStatus}
    {l : List (PeerId × Peer I)} {k : PeerId} {q : Peer I}
    (hmem : (k, q) ∈ l) (hs : q.status = s) : 1 ≤ countStatus s l := by
  induction l with
  | nil => cases hmem
  | cons e rest ih =>
    rcases List.mem_cons.mp hmem with h | h
    · subst h
      simp [countStatus, hs]
    · have := ih h
      simp only [countStatus]
      omega

theorem lookupPeer_mem {I : Type} {pid : PeerId} {l : List (PeerId × Peer I)}
    {q : Peer I} (h : lookupPeer pid l = some q) : (pid, q) ∈ l := by
  induction l with
  | nil => simp [lookupPeer] at h
  | cons e rest ih =>
    by_cases he : e.1 = pid
    · simp only [lookupPeer, he, if_true, Option.some.injEq] at h
      subst h
      have hpe : (pid, e.2) = e := by rw [← he]
      rw [hpe]
      exact List.mem_cons_self _ _
    · simp only [lookupPeer, he, if_false] at h
      exact List.mem_cons_of_mem _ (ih h)

theorem countStatus_upsert_none {I : Type} (s : PeerStatus) (pid : PeerId)
    (p : Peer I) (l : List (PeerId × Peer I))
    (h : lookupPeer pid l = none) :
    countStatus s (upsertPeer pid p l)
      = countStatus s l + (if p.status = s then 1 else 0) := by
  induction l with
  | nil => simp [upsertPeer, countStatus]
  | cons e rest ih =>
    by_cases he : e.1 = pid
    · simp [lookupPeer, he] at h
    · simp only [lookupPeer, he, if_false] at h
      simp only [upsertPeer, he, if_false, countStatus, ih h]
      omega

theorem countStatus_upsert_some {I : Type} (s : PeerStatus) (pid : PeerId)
    (p : Peer I) (l : List (PeerId × Peer I)) (q : Peer I)
    (h : lookupPeer pid l = some q) :
    countStatus s (upsertPeer pid p l) + (if q.status = s then 1 else 0)
      = countStatus s l + (if p.status = s then 1 else 0) := by
  induction l with
  | nil => simp [lookupPeer] at h
  | cons e rest ih =>
    by_cases he : e.1 = pid
    · simp only [lookupPeer, he, if_true, Option.some.injEq] at h
      subst h
      simp only [upsertPeer, he, if_true, countStatus]
      omega
    · simp only [lookupPeer, he, if_false] at h
      simp only [upsertPeer, he, if_false, countStatus]
      have := ih h
      omega

theorem countStatus_erase_some {I : Type} (s : PeerStatus) (pid : PeerId)
    (l : List (PeerId × Peer I)) (q : Peer I)
    (h : lookupPeer pid l = some q) :
    countStatus s (erasePeer pid l) + (if q.status = s then 1 else 0)
      = countStatus s l := by
  induction l with
  | nil => simp [lookupPeer] at h
  | cons e rest ih =>
    by_cases he : e.1 = pid
    · simp only [lookupPeer, he, if_true, Option.some.injEq] at h
      subst h
      simp only [erasePeer, he, if_true, countStatus]
      omega
    · simp only [lookupPeer, he, if_false] at h
      simp only [erasePeer, he, if_false, countStatus]
      have := ih h
      omega

theorem erasePeer_of_lookup_none {I : Type} (pid : PeerId)
    (l : List (PeerId × Peer I)) (h : lookupPeer pid l = none) :
    erasePeer pid l = l := by
  induction l with
  | nil => rfl
  | cons e rest ih =>
    by_cases he : e.1 = pid
    · simp [lookupPeer, he] at h
    · simp only [lookupPeer, he, if_false] at h
      simp [erasePeer, he, ih h]

theorem mem_upsert {I : Type} {pid : PeerId} {p : Peer I}
    {l : List (PeerId × Peer I)} {e : PeerId × Peer I}
    (h : e ∈ upsertPeer pid p l) : e = (pid, p) ∨ e ∈ l := by
  induction l with
  | nil =>
    simp only [upsertPeer, List.mem_singleton] at h
    exact Or.inl h
  | cons x rest ih =>
    by_cases hx : x.1 = pid
    · simp only [upsertPeer, hx, if_true, List.mem_cons] at h
      rcases h with h | h
      · exact Or.inl h
      · exact Or.inr (List.mem_cons_of_mem _ h)
    · simp only [upsertPeer, hx, if_false, List.mem_cons] at h
      rcases h with h | h
      · exact Or.inr (List.mem_cons.mpr (Or.inl h))
      · rcases ih h with h' | h'
        · exact Or.inl h'
        · exact Or.inr (List.mem_cons_of_mem _ h')

theorem mem_erase {I : Type} {pid : PeerId} {l : List (PeerId × Peer I)}
    {e : PeerId × Peer I} (h : e ∈ erasePeer pid l) : e ∈ l := by
  induction l with
  | nil => cases h
  | cons x rest ih =>
    by_cases hx : x.1 = pid
    · simp only [erasePeer, hx, if_true] at h
      exact List.mem_cons_of_mem _ h
    · simp only [erasePeer, hx, if_false, List.mem_cons] at h
      rcases h with h | h
      · exact List.mem_cons.mpr (Or.inl h)
      · exact List.mem_cons_of_mem _ (ih h)

theorem length_upsert_le {I : Type} (pid : PeerId) (p : Peer I)
    (l : List (PeerId × Peer I)) :
    (upsertPeer pid p l).length ≤ l.length + 1 := by
  induction l with
  | nil => simp [upsertPeer]
  | cons x rest ih =>
    by_cases hx : x.1 = pid <;> simp [upsertPeer, hx] <;> omega

theorem length_erase_le {I : Type} (pid : PeerId)
    (l : List (PeerId × Peer I)) : (erasePeer pid l).length ≤ l.length := by
  induction l with
  | nil => simp [erasePeer]
  | cons x rest ih =>
    by_cases hx : x.1 = pid <;> simp [erasePeer, hx] <;> omega

/-! ## The cleaner's peer-retention loop, solved -/

theorem cleanPeersLoop_eq {I : Type} (now : Nat) (l : List (PeerId × Peer I)) :
    ∀ ns nl : Nat,
      countStatus PeerStatus.Seeding (l.filter (fun e => !keepPeer now e)) ≤ ns →
      ns < USIZE_MOD →
      countStatus PeerStatus.Leeching (l.filter (fun e => !keepPeer now e)) ≤ nl →
      nl < USIZE_MOD →
      cleanPeersLoop now l ns nl =
        (l.filter (keepPeer now),
         ns - countStatus PeerStatus.Seeding (l.filter (fun e => !keepPeer now e)),
         nl - countStatus PeerStatus.Leeching (l.filter (fun e => !keepPeer now e))) := by
  induction l with
  | nil =>
    intro ns nl _ _ _ _
    simp [cleanPeersLoop, countStatus]
  | cons e rest ih =>
    intro ns nl hs hsM hl hlM
    by_cases hk : now < e.2.valid_until
    · have hkeep : keepPeer now e = true := by simp [keepPeer, hk]
      have h1 : List.filter (keepPeer now) (e :: rest)
          = e :: List.filter (keepPeer now) rest := by
        simp [List.filter_cons, hkeep]
      have h2 : List.filter (fun x => !keepPeer now x) (e :: rest)
          = List.filter (fun x => !keepPeer now x) rest := by
        simp [List.filter_cons, hkeep]
      rw [h2] at hs hl
      rw [cleanPeersLoop, if_pos hk, h1, h2, ih ns nl hs hsM hl hlM]
    · have hkeep : keepPeer now e = false := by simp [keepPeer, hk]
      have h1 : List.filter (keepPeer now) (e :: rest)
          = List.filter (keepPeer now) rest := by
        simp [List.filter_cons, hkeep]
      have h2 : List.filter (fun x => !keepPeer now x) (e :: rest)
          = e :: List.filter (fun x => !keepPeer now x) rest := by
        simp [List.filter_cons, hkeep]
      rw [h2] at hs hl
      rw [countStatus] at hs hl
      rw [cleanPeersLoop, if_neg hk, h1, h2, countStatus, countStatus]
      cases hstat : e.2.status with
      | Seeding =>
        rw [hstat] at hs hl
        simp only [reduceIte, reduceCtorEq] at hs hl ⊢
        have hdec : usizeDec ns = ns - 1 := usizeDec_of_pos (by omega) hsM
        rw [hdec, ih (ns - 1) nl (by omega) (by omega) (by omega) hlM]
        simp only [Prod.mk.injEq]
        exact ⟨trivial, by omega, by omega⟩
      | Leeching =>
        rw [hstat] at hs hl
        simp only [reduceIte, reduceCtorEq] at hs hl ⊢
        have hdec : usizeDec nl = nl - 1 := usizeDec_of_pos (by omega) hlM
        rw [hdec, ih ns (nl - 1) (by omega) hsM (by omega) (by omega)]
        simp only [Prod.mk.injEq]
        exact ⟨trivial, by omega, by omega⟩
      | Stopped =>
        rw [hstat] at hs hl
        simp only [reduceIte, reduceCtorEq] at hs hl ⊢
        rw [ih ns nl (by omega) hsM (by omega) hlM]
        simp only [Prod.mk.injEq]
        exact ⟨trivial, by omega, by omega⟩

/-! ## Claim C2 -/

/-- C2: For every announce event and every bytes_left value, the derived
peer status is: Stopped when the event is Stopped (regardless of
bytes_left); otherwise Seeding when bytes_left = 0; otherwise Leeching. -/
theorem C2_peer_status_derivation (event : AnnounceEvent)
    (bytes_left : NumberOfBytes) :
    (event = AnnounceEvent.Stopped →
      PeerStatus.from_event_and_bytes_left event bytes_left = PeerStatus.Stopped) ∧
    (event ≠ AnnounceEvent.Stopped → bytes_left.val = 0 →
      PeerStatus.from_event_and_bytes_left event bytes_left = PeerStatus.Seeding) ∧
    (event ≠ AnnounceEvent.Stopped → bytes_left.val ≠ 0 →
      PeerStatus.from_event_and_bytes_left event bytes_left = PeerStatus.Leeching) := by
  refine ⟨fun h => ?_, fun h hb => ?_, fun h hb => ?_⟩
  · simp [PeerStatus.from_event_and_bytes_left, h]
  · simp [PeerStatus.from_event_and_bytes_left, h, hb]
  · simp [PeerStatus.from_event_and_bytes_left, h, hb]

/-- Witness for C2 at concrete inputs. -/
theorem C2_witness :
    PeerStatus.from_event_and_bytes_left AnnounceEvent.Stopped
        (NumberOfBytes.mk 5) = PeerStatus.Stopped ∧
    PeerStatus.from_event_and_bytes_left AnnounceEvent.Started
        (NumberOfBytes.mk 0) = PeerStatus.Seeding ∧
    PeerStatus.from_event_and_bytes_left AnnounceEvent.Started
        (NumberOfBytes.mk 7) = PeerStatus.Leeching :=
  ⟨(C2_peer_status_derivation AnnounceEvent.Stopped (NumberOfBytes.mk 5)).1 rfl,
   (C2_peer_status_derivation AnnounceEvent.Started (NumberOfBytes.mk 0)).2.1
     (by decide) rfl,
   (C2_peer_status_derivation AnnounceEvent.Started (NumberOfBytes.mk 7)).2.2
     (by decide) (by decide)⟩

/-! ## Claim C3 -/

/-- C3: For every info hash and every positive worker count, the
dispatcher routes the hash to worker index `info_hash[0] mod N_w` and to
no other worker; the computed index is always strictly below the worker
count.  Covers both `SwarmWorkerIndex::from_info_hash` (UDP) and
`calculate_in_message_consumer_index` (WebSocket). -/
theorem C3_shard_routing (config : Config) (ws_config : WsConfig)
    (info_hash : InfoHash) (hw : 0 < config.swarm_workers)
    (hr : 0 < ws_config.request_workers) :
    (SwarmWorkerIndex.from_info_hash config info_hash).val
        < config.swarm_workers ∧
    (∀ j : Nat,
      SwarmWorkerIndex.from_info_hash config info_hash = SwarmWorkerIndex.mk j ↔
        j = info_hash.bytes.getD 0 0 % config.swarm_workers) ∧
    calculate_in_message_consumer_index ws_config info_hash
        < ws_config.request_workers ∧
    calculate_in_message_consumer_index ws_config info_hash
        = info_hash.bytes.getD 0 0 % ws_config.request_workers := by
  refine ⟨Nat.mod_lt _ hw, fun j => ?_, Nat.mod_lt _ hr, rfl⟩
  unfold SwarmWorkerIndex.from_info_hash
  rw [SwarmWorkerIndex.mk.injEq]
  exact eq_comm

/-- Witness for C3 with four swarm workers, three request workers, and an
info hash whose first byte is 9. -/
theorem C3_witness :
    (SwarmWorkerIndex.from_info_hash (Config.mk 4) (InfoHash.mk [9])).val < 4 ∧
    calculate_in_message_consumer_index (WsConfig.mk 3) (InfoHash.mk [9])
      = 9 % 3 :=
  ⟨(C3_shard_routing (Config.mk 4) (WsConfig.mk 3) (InfoHash.mk [9])
      (by decide) (by decide)).1,
   (C3_shard_routing (Config.mk 4) (WsConfig.mk 3) (InfoHash.mk [9])
      (by decide) (by decide)).2.2.2⟩

/-! ## Claim C4 -/

/-- C4: For every torrent and every time `now`, one cleaning pass retains
exactly the peers with `valid_until > now`, and the seeder respectively
leecher counter is decremented once for every removed Seeding
respectively Leeching peer.  The hypotheses say that the `usize`
counters dominate the number of removed peers of their status (so the
unchecked subtraction does not underflow) and are in `usize` range. -/
theorem C4_clean_pass_retains_and_decrements {I : Type} (now : Nat)
    (t : TorrentData I)
    (hs : countStatus PeerStatus.Seeding
        (t.peers.filter (fun e => !keepPeer now e)) ≤ t.num_seeders)
    (hsM : t.num_seeders < USIZE_MOD)
    (hl : countStatus PeerStatus.Leeching
        (t.peers.filter (fun e => !keepPeer now e)) ≤ t.num_leechers)
    (hlM : t.num_leechers < USIZE_MOD) :
    TorrentMaps.clean_torrent_and_peers now t =
      ({ peers := t.peers.filter (keepPeer now)
         num_seeders := t.num_seeders - countStatus PeerStatus.Seeding
            (t.peers.filter (fun e => !keepPeer now e))
         num_leechers := t.num_leechers - countStatus PeerStatus.Leeching
            (t.peers.filter (fun e => !keepPeer now e)) },
       !(t.peers.filter (keepPeer now)).isEmpty) := by
  simp only [TorrentMaps.clean_torrent_and_peers]
  rw [cleanPeersLoop_eq now t.peers t.num_seeders t.num_leechers hs hsM hl hlM]

/-- Witness for C4: two peers, one expired Leeching peer removed. -/
theorem C4_witness :
    TorrentMaps.clean_torrent_and_peers 5
      (TorrentData.mk
        [(PeerId.mk [1], Peer.mk (0 : Nat) (Port.mk 1) PeerStatus.Seeding 10),
         (PeerId.mk [2], Peer.mk (0 : Nat) (Port.mk 2) PeerStatus.Leeching 3)]
        1 1) =
      (TorrentData.mk
        [(PeerId.mk [1], Peer.mk (0 : Nat) (Port.mk 1) PeerStatus.Seeding 10)]
        1 0, true) := by
  rw [C4_clean_pass_retains_and_decrements 5 _ (by decide) (by decide)
    (by decide) (by decide)]
  rfl

/-! ## Claim C5 -/

theorem cleanMap_eq {I : Type} (allows : InfoHash → Bool) (now : Nat)
    (m : List (InfoHash × TorrentData I)) :
    TorrentMaps.cleanMap allows now m =
      (m.filter (fun e => allows e.1 &&
          !(TorrentMaps.clean_torrent_and_peers now e.2).1.peers.isEmpty)).map
        (fun e => (e.1, (TorrentMaps.clean_torrent_and_peers now e.2).1)) := by
  induction m with
  | nil => rfl
  | cons e rest ih =>
    rcases e with ⟨h, t⟩
    have hkeep : (TorrentMaps.clean_torrent_and_peers now t).2
        = !(TorrentMaps.clean_torrent_and_peers now t).1.peers.isEmpty := rfl
    by_cases ha : allows h
    · by_cases hne : (TorrentMaps.clean_torrent_and_peers now t).1.peers.isEmpty
      · simp [TorrentMaps.cleanMap, ha, hkeep, hne, List.filter_cons, ih]
      · simp [TorrentMaps.cleanMap, ha, hkeep, hne, List.filter_cons, ih]
    · simp [TorrentMaps.cleanMap, ha, List.filter_cons, ih]

/-- C5: A cleaning pass keeps a torrent exactly when the access list
allows its info hash and its peer map is non-empty after peer eviction;
every kept torrent's state is the evicted state.  Equivalently, a torrent
is removed iff it is disallowed or becomes empty, and all other torrents
remain. -/
theorem C5_clean_removes_iff {I4 I6 : Type} (allows : InfoHash → Bool)
    (now : Nat) (maps : TorrentMapsState I4 I6) :
    TorrentMaps.clean allows now maps =
      { ipv4 := (maps.ipv4.filter (fun e => allows e.1 &&
            !(TorrentMaps.clean_torrent_and_peers now e.2).1.peers.isEmpty)).map
          (fun e => (e.1, (TorrentMaps.clean_torrent_and_peers now e.2).1))
        ipv6 := (maps.ipv6.filter (fun e => allows e.1 &&
            !(TorrentMaps.clean_torrent_and_peers now e.2).1.peers.isEmpty)).map
          (fun e => (e.1, (TorrentMaps.clean_torrent_and_peers now e.2).1)) } := by
  unfold TorrentMaps.clean
  rw [cleanMap_eq, cleanMap_eq]

/-! ## Claim C6 -/

/-- C6 counterexample: cleaning a torrent that stores one expired Seeding
peer while `num_seeders` is already zero does not saturate the counter at
zero — the unchecked release-mode `usize` subtraction wraps to
`2 ^ 64 - 1`, a huge value. -/
theorem C6_counterexample :
    (TorrentMaps.clean_torrent_and_peers 5
        (TorrentData.mk [(PeerId.mk [], Peer.mk (0 : Nat) (Port.mk 0)
          PeerStatus.Seeding 3)] 0 0)).1.num_seeders ≠ 0 ∧
    (TorrentMaps.clean_torrent_and_peers 5
        (TorrentData.mk [(PeerId.mk [], Peer.mk (0 : Nat) (Port.mk 0)
          PeerStatus.Seeding 3)] 0 0)).1.num_seeders = 2 ^ 64 - 1 := by
  constructor
  · decide
  · decide

/-- C6 (amended): when the cleaner removes an expired peer whose status
counter is already zero, the counter wraps modulo `2 ^ 64` to
`usize::MAX = 2 ^ 64 - 1` in release builds (in development builds the
implicit overflow check panics); the counter does not saturate at zero. -/
theorem C6_underflow_wraps {I : Type} (now : Nat) (pid : PeerId) (p : Peer I)
    (nl : Nat) (hstat : p.status = PeerStatus.Seeding)
    (hexp : p.valid_until ≤ now) :
    (TorrentMaps.clean_torrent_and_peers now
        (TorrentData.mk [(pid, p)] 0 nl)).1.num_seeders = USIZE_MOD - 1 := by
  simp only [TorrentMaps.clean_torrent_and_peers, cleanPeersLoop,
    Nat.not_lt.mpr hexp, if_false, hstat, usizeDec_zero]

/-- Witness for the amended C6. -/
theorem C6_witness :
    (TorrentMaps.clean_torrent_and_peers 9
        (TorrentData.mk [(PeerId.mk [3], Peer.mk (0 : Nat) (Port.mk 7)
          PeerStatus.Seeding 2)] 0 4)).1.num_seeders = USIZE_MOD - 1 :=
  C6_underflow_wraps 9 (PeerId.mk [3])
    (Peer.mk (0 : Nat) (Port.mk 7) PeerStatus.Seeding 2) 4 rfl (by decide)

/-! ## Claim C1 -/

theorem cleanPeersLoop_fst {I : Type} (now : Nat) (l : List (PeerId × Peer I)) :
    ∀ ns nl : Nat, (cleanPeersLoop now l ns nl).1 = l.filter (keepPeer now) := by
  induction l with
  | nil => intro ns nl; simp [cleanPeersLoop]
  | cons e rest ih =>
    intro ns nl
    by_cases hk : now < e.2.valid_until
    · have hkeep : keepPeer now e = true := by simp [keepPeer, hk]
      simp [cleanPeersLoop, if_pos hk, List.filter_cons, hkeep, ih]
    · have hkeep : keepPeer now e = false := by simp [keepPeer, hk]
      cases hstat : e.2.status with
      | Seeding => simp [cleanPeersLoop, if_neg hk, hstat, List.filter_cons, hkeep, ih]
      | Leeching => simp [cleanPeersLoop, if_neg hk, hstat, List.filter_cons, hkeep, ih]
      | Stopped => simp [cleanPeersLoop, if_neg hk, hstat, List.filter_cons, hkeep, ih]

theorem handle_announce_preserves_wf {I : Type} (t : TorrentData I)
    (pid : PeerId) (ip : I) (port : Port) (event : AnnounceEvent)
    (bytes_left : NumberOfBytes) (vu : Nat) (hwf : t.Wf) :
    (t.handle_announce pid ip port event bytes_left vu).Wf := by
  obtain ⟨hstop, hcs, hcl⟩ := hwf
  cases hold : lookupPeer pid t.peers with
  | none =>
    cases hst : PeerStatus.from_event_and_bytes_left event bytes_left with
    | Stopped =>
      simp only [TorrentData.handle_announce, hst, hold]
      rw [erasePeer_of_lookup_none pid t.peers hold]
      exact ⟨hstop, hcs, hcl⟩
    | Seeding =>
      simp only [TorrentData.handle_announce, hst, hold]
      have hS := countStatus_upsert_none PeerStatus.Seeding pid
        (Peer.mk ip port PeerStatus.Seeding vu) t.peers hold
      have hL := countStatus_upsert_none PeerStatus.Leeching pid
        (Peer.mk ip port PeerStatus.Seeding vu) t.peers hold
      simp at hS hL
      refine ⟨?_, ?_, ?_⟩
      · intro e he
        rcases mem_upsert he with h | h
        · subst h; simp
        · exact hstop e h
      · dsimp only; omega
      · dsimp only; omega
    | Leeching =>
      simp only [TorrentData.handle_announce, hst, hold]
      have hS := countStatus_upsert_none PeerStatus.Seeding pid
        (Peer.mk ip port PeerStatus.Leeching vu) t.peers hold
      have hL := countStatus_upsert_none PeerStatus.Leeching pid
        (Peer.mk ip port PeerStatus.Leeching vu) t.peers hold
      simp at hS hL
      refine ⟨?_, ?_, ?_⟩
      · intro e he
        rcases mem_upsert he with h | h
        · subst h; simp
        · exact hstop e h
      · dsimp only; omega
      · dsimp only; omega
  | some q =>
    have hq := lookupPeer_mem hold
    have hqs : q.status ≠ PeerStatus.Stopped := hstop (pid, q) hq
    cases hst : PeerStatus.from_event_and_bytes_left event bytes_left with
    | Stopped =>
      simp only [TorrentData.handle_announce, hst, hold]
      have hS := countStatus_erase_some PeerStatus.Seeding pid t.peers q hold
      have hL := countStatus_erase_some PeerStatus.Leeching pid t.peers q hold
      refine ⟨?_, ?_, ?_⟩
      · intro e he
        exact hstop e (mem_erase he)
      · cases hqstat : q.status with
        | Stopped => exact absurd hqstat hqs
        | Seeding =>
          simp [hqstat] at hS hL ⊢
          have hpos := countStatus_pos_of_mem hq hqstat
          omega
        | Leeching =>
          simp [hqstat] at hS hL ⊢
          omega
      · cases hqstat : q.status with
        | Stopped => exact absurd hqstat hqs
        | Seeding =>
          simp [hqstat] at hS hL ⊢
          omega
        | Leeching =>
          simp [hqstat] at hS hL ⊢
          have hpos := countStatus_pos_of_mem hq hqstat
          omega
    | Seeding =>
      simp only [TorrentData.handle_announce, hst, hold]
      have hS := countStatus_upsert_some PeerStatus.Seeding pid
        (Peer.mk ip port PeerStatus.Seeding vu) t.peers q hold
      have hL := countStatus_upsert_some PeerStatus.Leeching pid
        (Peer.mk ip port PeerStatus.Seeding vu) t.peers q hold
      refine ⟨?_, ?_, ?_⟩
      · intro e he
        rcases mem_upsert he with h | h
        · subst h; simp
        · exact hstop e h
      · cases hqstat : q.status with
        | Stopped => exact absurd hqstat hqs
        | Seeding =>
          simp [hqstat] at hS hL ⊢
          have hpos := countStatus_pos_of_mem hq hqstat
          omega
        | Leeching =>
          simp [hqstat] at hS hL ⊢
          omega
      · cases hqstat : q.status with
        | Stopped => exact absurd hqstat hqs
        | Seeding =>
          simp [hqstat] at hS hL ⊢
          omega
        | Leeching =>
          simp [hqstat] at hS hL ⊢
          have hpos := countStatus_pos_of_mem hq hqstat
          omega
    | Leeching =>
      simp only [TorrentData.handle_announce, hst, hold]
      have hS := countStatus_upsert_some PeerStatus.Seeding pid
        (Peer.mk ip port PeerStatus.Leeching vu) t.peers q hold
      have hL := countStatus_upsert_some PeerStatus.Leeching pid
        (Peer.mk ip port PeerStatus.Leeching vu) t.peers q hold
      refine ⟨?_, ?_, ?_⟩
      · intro e he
        rcases mem_upsert he with h | h
        · subst h; simp
        · exact hstop e h
      · cases hqstat : q.status with
        | Stopped => exact absurd hqstat hqs
        | Seeding =>
          simp [hqstat] at hS hL ⊢
          have hpos := countStatus_pos_of_mem hq hqstat
          omega
        | Leeching =>
          simp [hqstat] at hS hL ⊢
          omega
      · cases hqstat : q.status with
        | Stopped => exact absurd hqstat hqs
        | Seeding =>
          simp [hqstat] at hS hL ⊢
          omega
        | Leeching =>
          simp [hqstat] at hS hL ⊢
          have hpos := countStatus_pos_of_mem hq hqstat
          omega

theorem handle_announce_length_le {I : Type} (t : TorrentData I)
    (pid : PeerId) (ip : I) (port : Port) (event : AnnounceEvent)
    (bytes_left : NumberOfBytes) (vu : Nat) :
    (t.handle_announce pid ip port event bytes_left vu).peers.length
      ≤ t.peers.length + 1 := by
  cases hold : lookupPeer pid t.peers with
  | none =>
    cases hst : PeerStatus.from_event_and_bytes_left event bytes_left with
    | Stopped =>
      simp only [TorrentData.handle_announce, hst, hold]
      have := length_erase_le pid t.peers
      omega
    | Seeding =>
      simp only [TorrentData.handle_announce, hst, hold]
      exact length_upsert_le pid _ t.peers
    | Leeching =>
      simp only [TorrentData.handle_announce, hst, hold]
      exact length_upsert_le pid _ t.peers
  | some q =>
    cases hst : PeerStatus.from_event_and_bytes_left event bytes_left with
    | Stopped =>
      simp only [TorrentData.handle_announce, hst, hold]
      have := length_erase_le pid t.peers
      omega
    | Seeding =>
      simp only [TorrentData.handle_announce, hst, hold]
      exact length_upsert_le pid _ t.peers
    | Leeching =>
      simp only [TorrentData.handle_announce, hst, hold]
      exact length_upsert_le pid _ t.peers

theorem clean_preserves_wf {I : Type} (now : Nat) (t : TorrentData I)
    (hwf : t.Wf) (hlen : t.peers.length < USIZE_MOD) :
    ((TorrentMaps.clean_torrent_and_peers now t).1).Wf := by
  obtain ⟨hstop, hcs, hcl⟩ := hwf
  have hpartS := countStatus_filter_partition PeerStatus.Seeding (keepPeer now) t.peers
  have hpartL := countStatus_filter_partition PeerStatus.Leeching (keepPeer now) t.peers
  have hlabS := countStatus_le_length PeerStatus.Seeding t.peers
  have hlabL := countStatus_le_length PeerStatus.Leeching t.peers
  have heq := cleanPeersLoop_eq now t.peers t.num_seeders t.num_leechers
    (by omega) (by omega) (by omega) (by omega)
  simp only [TorrentMaps.clean_torrent_and_peers, heq]
  refine ⟨?_, ?_, ?_⟩
  · intro e he
    exact hstop e (List.mem_of_mem_filter he)
  · dsimp only; omega
  · dsimp only; omega

theorem clean_length_le {I : Type} (now : Nat) (t : TorrentData I) :
    ((TorrentMaps.clean_torrent_and_peers now t).1).peers.length
      ≤ t.peers.length := by
  simp only [TorrentMaps.clean_torrent_and_peers, cleanPeersLoop_fst]
  exact List.length_filter_le _ _

theorem foldl_torrentOps_wf {I : Type} :
    ∀ (ops : List (TorrentOp I)) (t : TorrentData I),
      t.Wf → t.peers.length + ops.length ≤ USIZE_MOD →
      (ops.foldl applyTorrentOp t).Wf := by
  intro ops
  induction ops with
  | nil =>
    intro t hwf _
    simpa using hwf
  | cons op rest ih =>
    intro t hwf hlen
    simp only [List.foldl_cons]
    cases op with
    | announce pid ip port event bytes_left vu =>
      apply ih
      · exact handle_announce_preserves_wf t pid ip port event bytes_left vu hwf
      · have := handle_announce_length_le t pid ip port event bytes_left vu
        simp only [applyTorrentOp, List.length_cons] at hlen ⊢
        omega
    | cleanPass now =>
      apply ih
      · exact clean_preserves_wf now t hwf
          (by simp only [List.length_cons] at hlen; omega)
      · have := clean_length_le now t
        simp only [applyTorrentOp, List.length_cons] at hlen ⊢
        omega

theorem countStatus_add_of_no_stopped {I : Type} (l : List (PeerId × Peer I))
    (h : ∀ e ∈ l, e.2.status ≠ PeerStatus.Stopped) :
    countStatus PeerStatus.Seeding l + countStatus PeerStatus.Leeching l
      = l.length := by
  induction l with
  | nil => simp [countStatus]
  | cons e rest ih =>
    have he := h e (List.mem_cons_self _ _)
    have hrest := ih (fun x hx => h x (List.mem_cons_of_mem _ hx))
    cases hstat : e.2.status with
    | Stopped => exact absurd hstat he
    | Seeding => simp [countStatus, hstat]; omega
    | Leeching => simp [countStatus, hstat]; omega

/-- C1: Starting from the default (empty) torrent state, after any
sequence of announce handlings and cleaning passes (of `usize`-realistic
length), `num_seeders` equals the number of stored Seeding peers,
`num_leechers` equals the number of stored Leeching peers, and their sum
equals the number of stored peers whose status is not Stopped. -/
theorem C1_counter_consistency {I : Type} (ops : List (TorrentOp I))
    (hops : ops.length ≤ USIZE_MOD) :
    ((ops.foldl applyTorrentOp (TorrentData.default I)).num_seeders
        = countStatus PeerStatus.Seeding
            (ops.foldl applyTorrentOp (TorrentData.default I)).peers) ∧
    ((ops.foldl applyTorrentOp (TorrentData.default I)).num_leechers
        = countStatus PeerStatus.Leeching
            (ops.foldl applyTorrentOp (TorrentData.default I)).peers) ∧
    ((ops.foldl applyTorrentOp (TorrentData.default I)).num_seeders
        + (ops.foldl applyTorrentOp (TorrentData.default I)).num_leechers
        = ((ops.foldl applyTorrentOp (TorrentData.default I)).peers.filter
            (fun e => decide (e.2.status ≠ PeerStatus.Stopped))).length) := by
  have hwf0 : (TorrentData.default I).Wf := by
    refine ⟨?_, rfl, rfl⟩
    intro e he
    simp [TorrentData.default] at he
  have hwf := foldl_torrentOps_wf ops (TorrentData.default I) hwf0
    (by simpa [TorrentData.default] using hops)
  obtain ⟨hstop, hcs, hcl⟩ := hwf
  refine ⟨hcs, hcl, ?_⟩
  have hfilter : ((ops.foldl applyTorrentOp (TorrentData.default I)).peers.filter
      (fun e => decide (e.2.status ≠ PeerStatus.Stopped)))
      = (ops.foldl applyTorrentOp (TorrentData.default I)).peers := by
    apply List.filter_eq_self.mpr
    intro e he
    simpa using hstop e he
  rw [hfilter, hcs, hcl]
  exact countStatus_add_of_no_stopped _ hstop

/-- Witness for C1: two announces and a cleaning pass. -/
theorem C1_witness :
    ([TorrentOp.announce (PeerId.mk [1]) (0 : Nat) (Port.mk 1)
        AnnounceEvent.Started (NumberOfBytes.mk 100) 10,
      TorrentOp.announce (PeerId.mk [2]) (0 : Nat) (Port.mk 2)
        AnnounceEvent.Started (NumberOfBytes.mk 0) 10,
      TorrentOp.cleanPass 5] : List (TorrentOp Nat)).length ≤ USIZE_MOD ∧
    (([TorrentOp.announce (PeerId.mk [1]) (0 : Nat) (Port.mk 1)
        AnnounceEvent.Started (NumberOfBytes.mk 100) 10,
      TorrentOp.announce (PeerId.mk [2]) (0 : Nat) (Port.mk 2)
        AnnounceEvent.Started (NumberOfBytes.mk 0) 10,
      TorrentOp.cleanPass 5] : List (TorrentOp Nat)).foldl applyTorrentOp
        (TorrentData.default Nat)).num_seeders
      = countStatus PeerStatus.Seeding
          (([TorrentOp.announce (PeerId.mk [1]) (0 : Nat) (Port.mk 1)
              AnnounceEvent.Started (NumberOfBytes.mk 100) 10,
            TorrentOp.announce (PeerId.mk [2]) (0 : Nat) (Port.mk 2)
              AnnounceEvent.Started (NumberOfBytes.mk 0) 10,
            TorrentOp.cleanPass 5] : List (TorrentOp Nat)).foldl applyTorrentOp
            (TorrentData.default Nat)).peers :=
  ⟨by decide, (C1_counter_consistency _ (by decide)).1⟩

/-! ## Claim C7 -/

/-- C7: A WebSocket scrape request whose `info_hashes` field is absent is
answered with an error response whose failure reason is
"Full scrapes are not allowed"; no message is sent to any swarm worker
and no pending-scrape slab entry is created. -/
theorem C7_full_scrape_refused (config : WsConfig) (allows : InfoHash → Bool)
    (fresh_key : Nat) :
    (handle_in_message config allows fresh_key
        (WsInMessage.scrapeRequest none)).worker_messages = [] ∧
    (handle_in_message config allows fresh_key
        (WsInMessage.scrapeRequest none)).error_response
      = some "Full scrapes are not allowed" ∧
    (handle_in_message config allows fresh_key
        (WsInMessage.scrapeRequest none)).slab_insert = none :=
  ⟨rfl, rfl, rfl⟩

/-! ## Claim C9 -/

/-- C9: If the bounded channel is full, `try_send_to` drops the message
with an operator log entry — it returns without delivering the message
(the channel vector is unchanged) and without panicking; if the channel
is disconnected, the call is fatal (panic).  Holds for both the request
sender and the response sender. -/
theorem C9_channel_error_policy {α : Type} (senders : List (ChannelState α))
    (i : Nat) (msg : α) (chan : ChannelState α)
    (hc : senders[i]? = some chan) :
    (chan.receiver_connected = true → chan.capacity ≤ chan.queue.length →
      ConnectedRequestSender.try_send_to senders i msg
        = (SendToOutcome.droppedWithLog, senders) ∧
      ConnectedResponseSender.try_send_to senders i msg
        = (SendToOutcome.droppedWithLog, senders)) ∧
    (chan.receiver_connected = false →
      ConnectedRequestSender.try_send_to senders i msg
        = (SendToOutcome.fatalPanic, senders) ∧
      ConnectedResponseSender.try_send_to senders i msg
        = (SendToOutcome.fatalPanic, senders)) := by
  refine ⟨fun hconn hfull => ⟨?_, ?_⟩, fun hdis => ⟨?_, ?_⟩⟩
  · unfold ConnectedRequestSender.try_send_to
    rw [hc]
    simp [channelTrySend, hconn, hfull]
  · unfold ConnectedResponseSender.try_send_to
    rw [hc]
    simp [channelTrySend, hconn, hfull]
  · unfold ConnectedRequestSender.try_send_to
    rw [hc]
    simp [channelTrySend, hdis]
  · unfold ConnectedResponseSender.try_send_to
    rw [hc]
    simp [channelTrySend, hdis]

/-- Witness for C9: a full channel and a disconnected channel. -/
theorem C9_witness :
    ConnectedRequestSender.try_send_to [ChannelState.mk 1 [0] true] 0 (7 : Nat)
      = (SendToOutcome.droppedWithLog, [ChannelState.mk 1 [0] true]) ∧
    ConnectedResponseSender.try_send_to [ChannelState.mk 1 [] false] 0 (7 : Nat)
      = (SendToOutcome.fatalPanic, [ChannelState.mk 1 [] false]) :=
  ⟨((C9_channel_error_policy [ChannelState.mk 1 [0] true] 0 7
        (ChannelState.mk 1 [0] true) rfl).1 rfl (by decide)).1,
   ((C9_channel_error_policy [ChannelState.mk 1 [] false] 0 7
        (ChannelState.mk 1 [] false) rfl).2 rfl).2⟩

/-! ## Claim C8 -/

theorem slabGet_of_mem {slab : List (Nat × WsPendingScrapeResponse)}
    {id : Nat} {p : WsPendingScrapeResponse}
    (hnodup : (slab.map Prod.fst).Nodup) (hmem : (id, p) ∈ slab) :
    slabGet id slab = some p := by
  induction slab with
  | nil => cases hmem
  | cons e rest ih =>
    rw [List.map_cons, List.nodup_cons] at hnodup
    rcases List.mem_cons.mp hmem with h | h
    · subst h
      simp [slabGet]
    · have hne : e.1 ≠ id := by
        intro he
        exact hnodup.1 (he ▸ List.mem_map_of_mem Prod.fst h)
      simp only [slabGet, hne, if_false]
      exact ih hnodup.2 h

/-- C8: Each shard reply locates the pending-scrape slab entry by its key
and merges the reply's per-torrent stats into the accumulator.  If the
outstanding count was 1, the decrement reaches zero: the assembled
response (the merged accumulator) is emitted and the entry is removed
from the slab.  Otherwise no response is emitted, the entry stays in the
slab with the merged stats and the decremented count, and the decremented
count is non-zero. -/
theorem C8_pending_scrape_gather (slab : List (Nat × WsPendingScrapeResponse))
    (id : Nat) (p : WsPendingScrapeResponse)
    (files : List (InfoHash × WsScrapeStatistics))
    (hnodup : (slab.map Prod.fst).Nodup) (hmem : (id, p) ∈ slab)
    (hM : p.pending_worker_out_messages < USIZE_MOD) :
    (p.pending_worker_out_messages = 1 →
      handle_scrape_out_message slab id files
        = some (slab.filter (fun e => e.1 != id),
                some (extendStats p.stats files))) ∧
    (p.pending_worker_out_messages ≠ 1 →
      handle_scrape_out_message slab id files
        = some (slab.map (fun e => if e.1 = id then
            (id, WsPendingScrapeResponse.mk
              (usizeDec p.pending_worker_out_messages)
              (extendStats p.stats files))
          else e), none) ∧
      usizeDec p.pending_worker_out_messages ≠ 0) := by
  have hget := slabGet_of_mem hnodup hmem
  constructor
  · intro h1
    have h0 : usizeDec p.pending_worker_out_messages = 0 := by
      rw [h1, usizeDec_of_pos (by omega) (by rw [← h1]; exact hM)]
    unfold handle_scrape_out_message
    rw [hget]
    simp [h0]
  · intro hne
    have hnz : usizeDec p.pending_worker_out_messages ≠ 0 := by
      cases Nat.eq_zero_or_pos p.pending_worker_out_messages with
      | inl hz =>
        rw [hz, usizeDec_zero]
        norm_num [USIZE_MOD]
      | inr hpos =>
        rw [usizeDec_of_pos hpos hM]
        omega
    refine ⟨?_, hnz⟩
    unfold handle_scrape_out_message
    rw [hget]
    simp [hnz]

/-- Witness for C8: a single-shard scrape whose only outstanding reply
arrives. -/
theorem C8_witness :
    handle_scrape_out_message [(0, WsPendingScrapeResponse.mk 1 [])] 0 []
      = some ([], some []) := by
  have h := (C8_pending_scrape_gather [(0, WsPendingScrapeResponse.mk 1 [])] 0
      (WsPendingScrapeResponse.mk 1 []) [] (by decide) (by decide)
      (by decide)).1 rfl
  rw [h]
  rfl

/-! ## Claim C10 -/

theorem inflightOf_id (config : WsConfig) (allows : InfoHash → Bool) (k : Nat)
    (msg : WsInMessage) :
    ∀ x ∈ inflightOf (handle_in_message config allows k msg), x.1 = k := by
  intro x hx
  cases msg with
  | announceRequest info_hash =>
    by_cases ha : allows info_hash
    · simp [handle_in_message, inflightOf, ha] at hx
    · simp [handle_in_message, inflightOf, ha] at hx
  | scrapeRequest opt_hashes =>
    cases opt_hashes with
    | none => simp [handle_in_message, inflightOf] at hx
    | some hashes =>
      simp only [handle_in_message, inflightOf] at hx
      rw [List.filterMap_map] at hx
      rcases List.mem_filterMap.mp hx with ⟨a, _, hfa⟩
      have hax : (k, a.2) = x := by
        injection hfa
      rw [← hax]

theorem handle_scrape_out_preserves_other
    {slab : List (Nat × WsPendingScrapeResponse)} {id : Nat}
    {files : List (InfoHash × WsScrapeStatistics)}
    {slab' : List (Nat × WsPendingScrapeResponse)}
    {out : Option (List (InfoHash × WsScrapeStatistics))}
    {k : Nat} {e : WsPendingScrapeResponse}
    (hhandle : handle_scrape_out_message slab id files = some (slab', out))
    (hne : k ≠ id) (hmem : (k, e) ∈ slab) : (k, e) ∈ slab' := by
  unfold handle_scrape_out_message at hhandle
  cases hget : slabGet id slab with
  | none =>
    rw [hget] at hhandle
    exact absurd hhandle (by simp)
  | some p =>
    rw [hget] at hhandle
    by_cases h0 : usizeDec p.pending_worker_out_messages = 0
    · simp only [h0, if_true, Option.some.injEq, Prod.mk.injEq] at hhandle
      rw [← hhandle.1]
      refine List.mem_filter.mpr ⟨hmem, ?_⟩
      simp [hne]
    · simp only [h0, if_false, Option.some.injEq, Prod.mk.injEq] at hhandle
      rw [← hhandle.1]
      have hmap := List.mem_map_of_mem
        (fun e => if e.1 = id then
          (id, WsPendingScrapeResponse.mk
            (usizeDec p.pending_worker_out_messages)
            (extendStats p.stats files))
          else e) hmem
      simpa [hne] using hmap

theorem entryStuck_step {config : WsConfig} {allows : InfoHash → Bool}
    {s s' : WsConnectionState} {k : Nat}
    (hstep : WsStep config allows s s') (hinv : entryStuck k s) :
    entryStuck k s' := by
  obtain ⟨hslab, hinflight, hemit⟩ := hinv
  cases hstep with
  | in_message msg knew hfresh =>
    have hknew : k ≠ knew := hfresh (k, WsPendingScrapeResponse.mk 0 []) hslab
    refine ⟨List.mem_append.mpr (Or.inl hslab), ?_, hemit⟩
    intro hs hmem
    rcases List.mem_append.mp hmem with h | h
    · exact hinflight hs h
    · exact hknew (inflightOf_id config allows knew msg (k, hs) h)
  | worker_reply id hs files slab' out hin hhandle =>
    have hid : k ≠ id := by
      intro he
      exact hinflight hs (he ▸ hin)
    refine ⟨handle_scrape_out_preserves_other hhandle hid hslab, ?_, ?_⟩
    · intro hs' hmem
      exact hinflight hs' (List.mem_of_mem_erase hmem)
    · intro hmem
      rcases List.mem_append.mp hmem with h | h
      · exact hemit h
      · cases out with
        | some resp => simp at h; exact hid h
        | none => simp at h

theorem entryStuck_reachable {config : WsConfig} {allows : InfoHash → Bool}
    {s s' : WsConnectionState} {k : Nat}
    (hr : WsReachable config allows s s') (hinv : entryStuck k s) :
    entryStuck k s' := by
  induction hr with
  | refl => exact hinv
  | tail _ hstep ih => exact entryStuck_step hstep ih

/-- C10: Handling a WebSocket scrape request whose `info_hashes` field is
present but empty inserts a pending-scrape slab entry with outstanding
count 0, sends no message to any swarm worker, and produces no error
response.  In every state reachable from the resulting connection state,
that entry is still in the slab (it is never removed) and no scrape
response for it has been emitted. -/
theorem C10_empty_scrape_entry_leaks (config : WsConfig)
    (allows : InfoHash → Bool) (s0 : WsConnectionState) (key : Nat)
    (hfresh : ∀ e ∈ s0.slab, e.1 ≠ key)
    (hinflight : ∀ hs, (key, hs) ∉ s0.inflight)
    (hemit : key ∉ s0.emitted_for) :
    (handle_in_message config allows key
        (WsInMessage.scrapeRequest (some []))).worker_messages = [] ∧
    (handle_in_message config allows key
        (WsInMessage.scrapeRequest (some []))).error_response = none ∧
    (handle_in_message config allows key
        (WsInMessage.scrapeRequest (some []))).slab_insert
      = some (key, WsPendingScrapeResponse.mk 0 []) ∧
    (∀ s' : WsConnectionState,
      WsReachable config allows
        { slab := s0.slab ++ [(key, WsPendingScrapeResponse.mk 0 [])]
          inflight := s0.inflight
          emitted_for := s0.emitted_for } s' →
      (key, WsPendingScrapeResponse.mk 0 []) ∈ s'.slab ∧
      key ∉ s'.emitted_for) := by
  refine ⟨rfl, rfl, rfl, ?_⟩
  intro s' hr
  have hinv : entryStuck key
      { slab := s0.slab ++ [(key, WsPendingScrapeResponse.mk 0 [])]
        inflight := s0.inflight
        emitted_for := s0.emitted_for } := by
    refine ⟨List.mem_append.mpr (Or.inr (List.mem_singleton.mpr rfl)), ?_, hemit⟩
    intro hs
    exact hinflight hs
  have hfinal := entryStuck_reachable hr hinv
  exact ⟨hfinal.1, hfinal.2.2⟩

/-- Witness for C10 on an empty connection state. -/
theorem C10_witness :
    (0, WsPendingScrapeResponse.mk 0 []) ∈
      (WsConnectionState.mk
        (([] : List (Nat × WsPendingScrapeResponse))
          ++ [(0, WsPendingScrapeResponse.mk 0 [])]) [] []).slab ∧
    (0 : Nat) ∉ (WsConnectionState.mk
        (([] : List (Nat × WsPendingScrapeResponse))
          ++ [(0, WsPendingScrapeResponse.mk 0 [])]) [] []).emitted_for := by
  exact (C10_empty_scrape_entry_leaks (WsConfig.mk 1) (fun _ => true)
      (WsConnectionState.mk [] [] []) 0 (by simp) (by simp) (by simp)).2.2.2
    _ Relation.ReflTransGen.refl
